import Mathlib

/-!
Verification of the parliament_data extraction pipeline.

Dates are modelled as natural-number day counts (days since 0000-03-01 in
the proleptic Gregorian calendar, the standard civil-calendar day-number
algorithm), because the pipeline's pre-2015 splitting step enumerates
day-granularity date ranges.  Possibly-missing values (pandas NaT/NaN) are
modelled as Option; pandas comparison semantics (any comparison involving a
missing value is False) are captured by the py* comparison functions.
Fallible pipeline steps (Python subscript / index errors) return Option or
Except, with none / .error modelling the raised exception.
-/

namespace ParliamentData

/-- Day number of a civil date (days since 0000-03-01), the standard
days-from-civil algorithm restricted to CE dates. -/
def daysFromCivil (y m d : Nat) : Nat :=
  let y' := if m ≤ 2 then y - 1 else y
  let era := y' / 400
  let yoe := y' % 400
  let mp := (m + 9) % 12
  let doy := (153 * mp + 2) / 5 + (d - 1)
  let doe := yoe * 365 + yoe / 4 - yoe / 100 + doy
  era * 146097 + doe

/-- `2015-05-07T00:00:00`, the 2015 general-election date used as the
pre-2015 cut-off throughout `extract_members.py`. -/
def may2015 : Nat := daysFromCivil 2015 5 7

/-- pandas `<=` on possibly-missing dates: any comparison with NaT is False. -/
def pyLe : Option Nat → Option Nat → Bool
  | some a, some b => a ≤ b
  | _, _ => false

/-- pandas `<` on possibly-missing dates: any comparison with NaT is False. -/
def pyLt : Option Nat → Option Nat → Bool
  | some a, some b => a < b
  | _, _ => false

/-- pandas `==` on possibly-missing dates: any comparison with NaT is False
(in particular NaT == NaT is False). -/
def pyEq : Option Nat → Option Nat → Bool
  | some a, some b => a == b
  | _, _ => false

/-! ## Temporal Consistency Normalizer (extract_members.py, steps 1 and 2) -/

/-- `preelection_period_to_election_date.get(x, x)`: dictionary lookup with
the key itself as default; a NaT end date stays NaT. -/
def lookupDefault (m : List (Nat × Nat)) : Option Nat → Option Nat
  | none => none
  | some x =>
    match m.lookup x with
    | some y => some y
    | none => some x

/-- One house-membership-history record (`df_house_membership_histories` row). -/
structure HouseMembership where
  id : Nat
  house : Nat
  startDate : Option Nat
  endDate : Option Nat
  membershipFrom : String
  membershipFromID : Nat
  deriving DecidableEq, Repr

/-- One party-history record (`df_party_histories` row). -/
structure PartySpan where
  id : Nat
  startDate : Option Nat
  endDate : Option Nat
  party : String
  deriving DecidableEq, Repr

/-- `df_lords_membership_start_dates` restricted to one person: the minimum
start date over that person's house-2 membership records, pandas `min`
skipping missing values (none when the person has no Lords record, or when
all their Lords records have missing start dates — both merge to NaN/NaT and
compare as False downstream). -/
def lordsStart (hms : List HouseMembership) (pid : Nat) : Option Nat :=
  ((hms.filter (fun h => h.id == pid && h.house == 2)).filterMap (·.startDate)).min?

/-- House assigned to a party-history record:
`2 if startDate_x >= startDate_y else 1`, where `startDate_x` is the party
span's start and `startDate_y` the person's earliest Lords membership start;
any comparison involving NaT/NaN is False, giving house 1. -/
def partyHouse (lords : Option Nat) (start : Option Nat) : Nat :=
  if pyLe lords start then 2 else 1

/-- Selection predicate for `df_party_histories_mps_pre2015`:
`endDate <= 2015-05-07 and house == 1`. -/
def isPre2015Mp (endDate : Option Nat) (house : Nat) : Bool :=
  pyLe endDate (some may2015) && house == 1

/-- `pd.date_range(start=s, end=e - 1 day, freq='D')`: the days
`s, s+1, ..., e-1`, empty when `e ≤ s`. -/
def dateRange (s e : Nat) : List Nat :=
  (List.range (e - s)).map (fun i => s + i)

/-- Retained days of the date range: the first item of the range (which is
`s` whenever the range is nonempty) together with every historical election
date inside the range. -/
def retainedDates (elections : List Nat) (s e : Nat) : List Nat :=
  (dateRange s e).filter (fun y => y == s || elections.contains y)

/-- Candidate end dates for a sub-span:
`pre2015_election_dates + [2015-05-07]`. -/
def boundaries (elections : List Nat) : List Nat :=
  elections ++ [may2015]

/-- `[y for y in pre2015_election_dates + [2015-05-07] if y > start][0]`:
the first candidate end date after `start` in list order; `none` models the
IndexError raised when no candidate qualifies. -/
def nextBoundary (elections : List Nat) (start : Nat) : Option Nat :=
  ((boundaries elections).filter (fun y => decide (start < y))).head?

/-- The pre-2015 splitting step applied to one record with concrete start
`s` and (election-boundary-corrected) end `e`: each retained day becomes the
start of a sub-span whose end is the next candidate end date. -/
def splitDates (elections : List Nat) (s e : Nat) : List (Nat × Option Nat) :=
  (retainedDates elections s e).map (fun y => (y, nextBoundary elections y))

/-- The temporal-consistency normalization of a single party-history record:
election-boundary end-date correction, house inference, then either the
pre-2015 splitting (for Commons records ending on/before 2015-05-07) or
pass-through.  `none` models a raised exception: a missing start date makes
`pd.date_range` raise, an empty day range makes `explode` emit a null row
whose end-date assignment raises IndexError, and an exhausted candidate list
makes the `[0]` subscript raise IndexError. -/
def normalizeSpan (lords : Option Nat) (mapping : List (Nat × Nat))
    (elections : List Nat) (r : PartySpan) : Option (List PartySpan) :=
  let e1 := lookupDefault mapping r.endDate
  let h := partyHouse lords r.startDate
  if isPre2015Mp e1 h then
    match r.startDate, e1 with
    | some s, some e =>
      if e ≤ s then none
      else
        (splitDates elections s e).mapM
          (fun p => p.2.map (fun b => PartySpan.mk r.id (some p.1) (some b) r.party))
    | _, _ => none
  else
    some [PartySpan.mk r.id r.startDate e1 r.party]

/-! ## Lemmas about the pre-2015 splitting machinery -/

theorem mem_dateRange {s e y : Nat} : y ∈ dateRange s e ↔ s ≤ y ∧ y < e := by
  simp only [dateRange, List.mem_map, List.mem_range]
  constructor
  · rintro ⟨i, hi, rfl⟩
    omega
  · rintro ⟨h1, h2⟩
    exact ⟨y - s, by omega, by omega⟩

theorem sorted_dateRange (s e : Nat) : (dateRange s e).Pairwise (· < ·) :=
  List.Pairwise.map _ (fun a b h => Nat.add_lt_add_left h s) (List.pairwise_lt_range _)

theorem sorted_retainedDates (el : List Nat) (s e : Nat) :
    (retainedDates el s e).Pairwise (· < ·) :=
  List.Pairwise.filter _ (sorted_dateRange s e)

theorem mem_retainedDates {el : List Nat} {s e y : Nat} :
    y ∈ retainedDates el s e ↔ (s ≤ y ∧ y < e) ∧ (y = s ∨ y ∈ el) := by
  simp only [retainedDates, List.mem_filter, mem_dateRange, Bool.or_eq_true, beq_iff_eq,
    List.contains, List.elem_iff]

theorem start_mem_retainedDates {el : List Nat} {s e : Nat} (h : s < e) :
    s ∈ retainedDates el s e :=
  mem_retainedDates.mpr ⟨⟨Nat.le_refl s, h⟩, Or.inl rfl⟩

/-- The head of a filtered strictly sorted list is the least element
satisfying the predicate. -/
theorem head?_filter_least {p : Nat → Bool} :
    ∀ {L : List Nat}, L.Pairwise (· < ·) → ∀ {b : Nat}, (L.filter p).head? = some b →
      b ∈ L ∧ p b = true ∧ ∀ c ∈ L, p c = true → b ≤ c := by
  intro L
  induction L with
  | nil =>
    intro _ b h
    simp at h
  | cons x xs ih =>
    intro hs b h
    rcases List.pairwise_cons.mp hs with ⟨hx, hxs⟩
    by_cases hpx : p x = true
    · rw [List.filter_cons_of_pos hpx] at h
      have hbx : b = x := by
        simpa using h.symm
      subst hbx
      refine ⟨List.mem_cons_self _ _, hpx, ?_⟩
      intro c hc _
      rcases List.mem_cons.mp hc with rfl | hc
      · exact Nat.le_refl _
      · exact Nat.le_of_lt (hx c hc)
    · rw [List.filter_cons_of_neg (by simpa using hpx)] at h
      rcases ih hxs h with ⟨hb, hpb, hmin⟩
      refine ⟨List.mem_cons_of_mem _ hb, hpb, ?_⟩
      intro c hc hpc
      rcases List.mem_cons.mp hc with rfl | hc
      · exact absurd hpc hpx
      · exact hmin c hc hpc

/-- Any nonempty list of naturals has a greatest element. -/
theorem exists_max_of_ne_nil : ∀ {L : List Nat}, L ≠ [] → ∃ y ∈ L, ∀ z ∈ L, z ≤ y := by
  intro L
  induction L with
  | nil => intro h; exact absurd rfl h
  | cons x xs ih =>
    intro _
    cases xs with
    | nil =>
      refine ⟨x, List.mem_cons_self _ _, ?_⟩
      intro z hz
      rcases List.mem_cons.mp hz with rfl | hz
      · exact Nat.le_refl _
      · cases hz
    | cons x' xs' =>
      rcases ih (by simp) with ⟨y, hy, hmax⟩
      by_cases hxy : x ≤ y
      · refine ⟨y, List.mem_cons_of_mem _ hy, ?_⟩
        intro z hz
        rcases List.mem_cons.mp hz with rfl | hz
        · exact hxy
        · exact hmax z hz
      · refine ⟨x, List.mem_cons_self _ _, ?_⟩
        intro z hz
        rcases List.mem_cons.mp hz with rfl | hz
        · exact Nat.le_refl _
        · exact Nat.le_trans (hmax z hz) (Nat.le_of_not_le hxy)

theorem sorted_boundaries {el : List Nat} (hs : el.Pairwise (· < ·))
    (hlt : ∀ x ∈ el, x < may2015) : (boundaries el).Pairwise (· < ·) := by
  rw [boundaries, List.pairwise_append]
  refine ⟨hs, List.pairwise_singleton _ _, ?_⟩
  intro a ha b hb
  rcases List.mem_singleton.mp hb with rfl
  exact hlt a ha

theorem may2015_mem_boundaries (el : List Nat) : may2015 ∈ boundaries el := by
  simp [boundaries]

/-- The candidate-end-date subscript succeeds whenever the sub-span start is
before 2015-05-07. -/
theorem nextBoundary_isSome {el : List Nat} {y : Nat} (h : y < may2015) :
    ∃ b, nextBoundary el y = some b := by
  have hmem : may2015 ∈ (boundaries el).filter (fun c => decide (y < c)) :=
    List.mem_filter.mpr ⟨may2015_mem_boundaries el, by simpa using h⟩
  unfold nextBoundary
  cases hF : (boundaries el).filter (fun c => decide (y < c)) with
  | nil => rw [hF] at hmem; cases hmem
  | cons a t => exact ⟨a, rfl⟩

/-- Characterization of a successful candidate-end-date subscript: the
result is the least boundary strictly after the sub-span start. -/
theorem nextBoundary_spec {el : List Nat} {y b : Nat}
    (hs : el.Pairwise (· < ·)) (hlt : ∀ x ∈ el, x < may2015)
    (h : nextBoundary el y = some b) :
    b ∈ boundaries el ∧ y < b ∧ ∀ c ∈ boundaries el, y < c → b ≤ c := by
  have := head?_filter_least (sorted_boundaries hs hlt) h
  rcases this with ⟨hb, hpb, hmin⟩
  refine ⟨hb, by simpa using hpb, ?_⟩
  intro c hc hyc
  exact hmin c hc (by simpa using hyc)

set_option maxRecDepth 1000000 in
/-- Claim C1: running the Temporal Consistency Normalizer on the single
party-history span (external id 99, start 2010-01-01, end 2015-03-30,
party "X") with pre-election mapping {2015-03-30 ↦ 2015-05-07}, historical
election-date list [2010-05-06] and no Lords house-membership record emits
exactly the two sub-spans (2010-01-01 – 2010-05-06) and
(2010-05-06 – 2015-05-07) for id 99 and party "X". -/
theorem normalizeSpan_example_emits_two_subspans :
    normalizeSpan none [(daysFromCivil 2015 3 30, daysFromCivil 2015 5 7)]
      [daysFromCivil 2010 5 6]
      (PartySpan.mk 99 (some (daysFromCivil 2010 1 1)) (some (daysFromCivil 2015 3 30)) "X") =
    some [PartySpan.mk 99 (some (daysFromCivil 2010 1 1)) (some (daysFromCivil 2010 5 6)) "X",
          PartySpan.mk 99 (some (daysFromCivil 2010 5 6)) (some (daysFromCivil 2015 5 7)) "X"] := by
  decide

set_option maxRecDepth 1000000 in
/-- Claim C2, counterexample: for the Commons span 2010-01-01 – 2012-06-15
(corrected end date on or before 2015-05-07, but not itself an election
date), the splitting step produces a sub-span that covers the day
2012-06-15 itself, which lies outside the original half-open interval
[start, end) — so the union of the sub-spans' intervals is not [start, end). -/
theorem pre2015_split_not_tiling_cex :
    ∃ p ∈ splitDates [daysFromCivil 2010 5 6] (daysFromCivil 2010 1 1)
        (daysFromCivil 2012 6 15),
      ∃ b, p.2 = some b ∧ p.1 ≤ daysFromCivil 2012 6 15 ∧ daysFromCivil 2012 6 15 < b := by
  decide

/-- Claim C2 (amended): for every Commons party-history span whose
election-boundary-corrected end date is on or before 2015-05-07 AND is
itself a historical election date or 2015-05-07, the sub-spans produced by
the pre-2015 splitting step tile the original half-open interval
[start, end) exactly — their union is [start, end) and they are pairwise
disjoint.  (Without the extra condition on the end date the union is
[start, b) for the first election boundary b after the last sub-span start,
which can strictly exceed the original end, as the counterexample shows.)
The election-date list is modelled from the spec: `pre2015_election_dates`
lives in config.yaml, which is not part of the sources; per the spec it is
the literal list of historical general-election dates, hence strictly
ascending and entirely before 2015-05-07. -/
theorem pre2015_split_tiles (el : List Nat) (s e : Nat)
    (hsort : el.Pairwise (· < ·)) (hel : ∀ x ∈ el, x < may2015)
    (hse : s < e) (hemay : e ≤ may2015) (hb : e ∈ el ∨ e = may2015) :
    (∀ d : Nat, (s ≤ d ∧ d < e) ↔
      ∃ p ∈ splitDates el s e, ∃ b, p.2 = some b ∧ p.1 ≤ d ∧ d < b) ∧
    (splitDates el s e).Pairwise (fun p q => ∀ d b c,
      p.2 = some b → q.2 = some c → ¬(p.1 ≤ d ∧ d < b ∧ q.1 ≤ d ∧ d < c)) := by
  have heb : e ∈ boundaries el := by
    rcases hb with h | h
    · exact List.mem_append_left _ h
    · subst h
      exact may2015_mem_boundaries el
  simp only [splitDates]
  constructor
  · intro d
    constructor
    · rintro ⟨hsd, hde⟩
      have hsF : s ∈ (retainedDates el s e).filter (fun z => decide (z ≤ d)) :=
        List.mem_filter.mpr ⟨start_mem_retainedDates hse, by simpa using hsd⟩
      rcases exists_max_of_ne_nil (List.ne_nil_of_mem hsF) with ⟨y, hyF, hymax⟩
      rcases List.mem_filter.mp hyF with ⟨hyr, hyd⟩
      have hyd : y ≤ d := by simpa using hyd
      have hye : y < e := (mem_retainedDates.mp hyr).1.2
      rcases @nextBoundary_isSome el y (Nat.lt_of_lt_of_le hye hemay) with ⟨b, hnb⟩
      refine ⟨(y, nextBoundary el y), List.mem_map.mpr ⟨y, hyr, rfl⟩, b, hnb, hyd, ?_⟩
      by_contra hdb
      have hbd : b ≤ d := Nat.le_of_not_lt hdb
      rcases nextBoundary_spec hsort hel hnb with ⟨hbB, hyb, _⟩
      have hbe : b < e := Nat.lt_of_le_of_lt hbd hde
      have hbel : b ∈ el := by
        rcases List.mem_append.mp hbB with h | h
        · exact h
        · rcases List.mem_singleton.mp h with rfl
          exact absurd (Nat.lt_of_lt_of_le hbe hemay) (lt_irrefl _)
      have hsy : s ≤ y := (mem_retainedDates.mp hyr).1.1
      have hbr : b ∈ retainedDates el s e :=
        mem_retainedDates.mpr ⟨⟨by omega, hbe⟩, Or.inr hbel⟩
      have hby : b ≤ y := hymax b (List.mem_filter.mpr ⟨hbr, by simpa using hbd⟩)
      omega
    · rintro ⟨p, hp, b, hpb, hpd, hdb⟩
      rcases List.mem_map.mp hp with ⟨y, hyr, rfl⟩
      have hpd' : y ≤ d := hpd
      have hpb' : nextBoundary el y = some b := hpb
      rcases mem_retainedDates.mp hyr with ⟨⟨hsy, hye⟩, _⟩
      rcases nextBoundary_spec hsort hel hpb' with ⟨_, hyb, hmin⟩
      have hbe : b ≤ e := hmin e heb hye
      exact ⟨Nat.le_trans hsy hpd', Nat.lt_of_lt_of_le hdb hbe⟩
  · have h1 : (retainedDates el s e).Pairwise
        (fun a b => a ∈ retainedDates el s e ∧ b ∈ retainedDates el s e ∧ a < b) :=
      List.Pairwise.and_mem.mp (sorted_retainedDates el s e)
    refine List.Pairwise.map _ ?_ h1
    rintro a c ⟨har, hcr, hac⟩ d b b' hab hcb ⟨had, hdb, hcd, hdb'⟩
    have hab' : nextBoundary el a = some b := hab
    rcases nextBoundary_spec hsort hel hab' with ⟨_, _, hmin⟩
    have hcel : c ∈ el := by
      rcases (mem_retainedDates.mp hcr).2 with rfl | h
      · have hsa : c ≤ a := (mem_retainedDates.mp har).1.1
        omega
      · exact h
    have hbc : b ≤ c := hmin c (List.mem_append_left _ hcel) hac
    have had' : a ≤ d := had
    have hcd' : c ≤ d := hcd
    have hdb'' : d < b := hdb
    omega

set_option maxRecDepth 1000000 in
/-- Witness for the amended pre-2015 tiling claim at the concrete span
2010-01-01 – 2015-05-07 with election list [2010-05-06]. -/
theorem pre2015_split_tiles_witness :
    (∀ d : Nat,
      (daysFromCivil 2010 1 1 ≤ d ∧ d < daysFromCivil 2015 5 7) ↔
      ∃ p ∈ splitDates [daysFromCivil 2010 5 6] (daysFromCivil 2010 1 1)
          (daysFromCivil 2015 5 7),
        ∃ b, p.2 = some b ∧ p.1 ≤ d ∧ d < b) ∧
    (splitDates [daysFromCivil 2010 5 6] (daysFromCivil 2010 1 1)
        (daysFromCivil 2015 5 7)).Pairwise (fun p q => ∀ d b c,
      p.2 = some b → q.2 = some c → ¬(p.1 ≤ d ∧ d < b ∧ q.1 ≤ d ∧ d < c)) :=
  pre2015_split_tiles _ _ _ (List.pairwise_singleton _ _) (by decide) (by decide)
    (by decide) (Or.inr rfl)

/-! ## Name-history collapsing (extract_members.py, step 3) -/

/-- One name-history record (`df_name_histories` row, after cleaning). -/
structure NameRow where
  id : Nat
  nameClean : String
  startDate : Option Nat
  endDate : Option Nat
  deriving DecidableEq, Repr

/-- pandas `agg('min')` with default skipna: the minimum over the non-missing
values, missing when all values are missing. -/
def aggMin (l : List (Option Nat)) : Option Nat :=
  (l.filterMap id).min?

/-- pandas `agg('max')` with default skipna: the maximum over the non-missing
values, missing when all values are missing. -/
def aggMax (l : List (Option Nat)) : Option Nat :=
  (l.filterMap id).max?

/-- The `mask` step: replace the aggregated value with NaT where any value in
the column is missing for that group. -/
def maskAnyNone (l : List (Option Nat)) (v : Option Nat) : Option Nat :=
  if l.any (·.isNone) then none else v

/-- Collapse one (id, nameClean) group: earliest start and latest end,
masked to NaT when any start (resp. end) in the group is missing. -/
def collapseGroup (g : List NameRow) : Option Nat × Option Nat :=
  (maskAnyNone (g.map (·.startDate)) (aggMin (g.map (·.startDate))),
   maskAnyNone (g.map (·.endDate)) (aggMax (g.map (·.endDate))))

/-- The group keys of `groupby(['id', 'nameClean'])`, one per distinct pair. -/
def groupKeys (rows : List NameRow) : List (Nat × String) :=
  (rows.map (fun r => (r.id, r.nameClean))).dedup

/-- The rows of one `groupby(['id', 'nameClean'])` group. -/
def nameGroup (rows : List NameRow) (k : Nat × String) : List NameRow :=
  rows.filter (fun r => (r.id, r.nameClean) == k)

/-- Step 3 of the normalizer: collapse name-history records, taking the
earliest start and latest end per (id, nameClean) group, masked to NaT
where the group contains a missing value in that column. -/
def collapseNameHistories (rows : List NameRow) : List NameRow :=
  (groupKeys rows).map (fun k =>
    NameRow.mk k.1 k.2 (collapseGroup (nameGroup rows k)).1
      (collapseGroup (nameGroup rows k)).2)

theorem maskAnyNone_of_none {l : List (Option Nat)} {v : Option Nat}
    (h : none ∈ l) : maskAnyNone l v = none := by
  have : l.any (·.isNone) = true :=
    List.any_eq_true.mpr ⟨none, h, rfl⟩
  simp [maskAnyNone, this]

theorem maskAnyNone_of_all_some {l : List (Option Nat)} {v : Option Nat}
    (h : ∀ x ∈ l, x ≠ none) : maskAnyNone l v = v := by
  have : l.any (·.isNone) = false := by
    rw [List.any_eq_false]
    intro x hx
    cases hox : x with
    | none => exact absurd hox (h x hx)
    | some w => simp
  simp [maskAnyNone, this]

/-- pandas skipna `min` on an all-known nonempty column is the least value. -/
theorem aggMin_spec {l : List (Option Nat)} (hne : l ≠ [])
    (h : ∀ x ∈ l, x ≠ none) :
    ∃ m, aggMin l = some m ∧ some m ∈ l ∧ ∀ x ∈ l, ∀ v, x = some v → m ≤ v := by
  have hF : l.filterMap id ≠ [] := by
    rcases List.exists_mem_of_ne_nil l hne with ⟨x, hx⟩
    cases hox : x with
    | none => exact absurd hox (h x hx)
    | some w =>
      exact List.ne_nil_of_mem (List.mem_filterMap.mpr ⟨x, hx, by rw [hox]; rfl⟩)
  cases hm : (l.filterMap id).min? with
  | none => exact absurd (List.min?_eq_none_iff.mp hm) hF
  | some m =>
    rcases (List.min?_eq_some_iff (fun a => le_refl a) (fun a b => min_choice a b)
      (fun _ _ _ => Nat.le_min)).mp hm with ⟨hmem, hmin⟩
    rcases List.mem_filterMap.mp hmem with ⟨x, hx, hxm⟩
    have hxe : x = some m := hxm
    refine ⟨m, hm, by rwa [hxe] at hx, ?_⟩
    intro x hx v hv
    exact hmin v (List.mem_filterMap.mpr ⟨x, hx, by rw [hv]; rfl⟩)

/-- pandas skipna `max` on an all-known nonempty column is the greatest value. -/
theorem aggMax_spec {l : List (Option Nat)} (hne : l ≠ [])
    (h : ∀ x ∈ l, x ≠ none) :
    ∃ m, aggMax l = some m ∧ some m ∈ l ∧ ∀ x ∈ l, ∀ v, x = some v → v ≤ m := by
  have hF : l.filterMap id ≠ [] := by
    rcases List.exists_mem_of_ne_nil l hne with ⟨x, hx⟩
    cases hox : x with
    | none => exact absurd hox (h x hx)
    | some w =>
      exact List.ne_nil_of_mem (List.mem_filterMap.mpr ⟨x, hx, by rw [hox]; rfl⟩)
  cases hm : (l.filterMap id).max? with
  | none => exact absurd (List.max?_eq_none_iff.mp hm) hF
  | some m =>
    rcases (List.max?_eq_some_iff (fun a => le_refl a) (fun a b => max_choice a b)
      (fun _ _ _ => Nat.max_le)).mp hm with ⟨hmem, hmax⟩
    rcases List.mem_filterMap.mp hmem with ⟨x, hx, hxm⟩
    have hxe : x = some m := hxm
    refine ⟨m, hm, by rwa [hxe] at hx, ?_⟩
    intro x hx v hv
    exact hmax v (List.mem_filterMap.mpr ⟨x, hx, by rw [hv]; rfl⟩)

/-- Claim C4: for every (id, cleaned-name) group of name-history rows, the
collapsed start date is the minimum start date over the group unless some
row's start date is missing (then it is missing), and symmetrically the
collapsed end date is the maximum end date unless some row's end date is
missing (then it is missing). -/
theorem collapse_null_dominance (rows : List NameRow) (r : NameRow)
    (hr : r ∈ collapseNameHistories rows) :
    ((∃ q ∈ nameGroup rows (r.id, r.nameClean), q.startDate = none) →
      r.startDate = none) ∧
    ((∀ q ∈ nameGroup rows (r.id, r.nameClean), q.startDate ≠ none) →
      ∃ m, r.startDate = some m ∧
        (∃ q ∈ nameGroup rows (r.id, r.nameClean), q.startDate = some m) ∧
        ∀ q ∈ nameGroup rows (r.id, r.nameClean), ∀ v, q.startDate = some v → m ≤ v) ∧
    ((∃ q ∈ nameGroup rows (r.id, r.nameClean), q.endDate = none) →
      r.endDate = none) ∧
    ((∀ q ∈ nameGroup rows (r.id, r.nameClean), q.endDate ≠ none) →
      ∃ m, r.endDate = some m ∧
        (∃ q ∈ nameGroup rows (r.id, r.nameClean), q.endDate = some m) ∧
        ∀ q ∈ nameGroup rows (r.id, r.nameClean), ∀ v, q.endDate = some v → v ≤ m) := by
  rcases List.mem_map.mp hr with ⟨k, hk, rfl⟩
  have hkey : ((NameRow.mk k.1 k.2 (collapseGroup (nameGroup rows k)).1
      (collapseGroup (nameGroup rows k)).2).id,
      (NameRow.mk k.1 k.2 (collapseGroup (nameGroup rows k)).1
      (collapseGroup (nameGroup rows k)).2).nameClean) = k := rfl
  rw [hkey]
  have hgne : nameGroup rows k ≠ [] := by
    rcases List.mem_map.mp (List.mem_dedup.mp hk) with ⟨q, hq, hqk⟩
    exact List.ne_nil_of_mem (List.mem_filter.mpr ⟨hq, by rw [hqk]; exact beq_self_eq_true k⟩)
  refine ⟨?_, ?_, ?_, ?_⟩
  · rintro ⟨q, hq, hqs⟩
    show (collapseGroup (nameGroup rows k)).1 = none
    exact maskAnyNone_of_none (List.mem_map.mpr ⟨q, hq, hqs⟩)
  · intro h
    have hall : ∀ x ∈ (nameGroup rows k).map (·.startDate), x ≠ none := by
      rintro x hx
      rcases List.mem_map.mp hx with ⟨q, hq, rfl⟩
      exact h q hq
    have hmapne : (nameGroup rows k).map (·.startDate) ≠ [] := by
      intro hcon
      exact hgne (List.map_eq_nil_iff.mp hcon)
    rcases aggMin_spec hmapne hall with ⟨m, hm, hmem, hmin⟩
    rcases List.mem_map.mp hmem with ⟨q, hq, hqm⟩
    refine ⟨m, ?_, ⟨q, hq, hqm⟩, ?_⟩
    · show maskAnyNone _ _ = some m
      rw [maskAnyNone_of_all_some hall, hm]
    · intro q hq v hv
      exact hmin q.startDate (List.mem_map.mpr ⟨q, hq, rfl⟩) v hv
  · rintro ⟨q, hq, hqs⟩
    show (collapseGroup (nameGroup rows k)).2 = none
    exact maskAnyNone_of_none (List.mem_map.mpr ⟨q, hq, hqs⟩)
  · intro h
    have hall : ∀ x ∈ (nameGroup rows k).map (·.endDate), x ≠ none := by
      rintro x hx
      rcases List.mem_map.mp hx with ⟨q, hq, rfl⟩
      exact h q hq
    have hmapne : (nameGroup rows k).map (·.endDate) ≠ [] := by
      intro hcon
      exact hgne (List.map_eq_nil_iff.mp hcon)
    rcases aggMax_spec hmapne hall with ⟨m, hm, hmem, hmax⟩
    rcases List.mem_map.mp hmem with ⟨q, hq, hqm⟩
    refine ⟨m, ?_, ⟨q, hq, hqm⟩, ?_⟩
    · show maskAnyNone _ _ = some m
      rw [maskAnyNone_of_all_some hall, hm]
    · intro q hq v hv
      exact hmax q.endDate (List.mem_map.mpr ⟨q, hq, rfl⟩) v hv

/-- Witness for the null-dominance claim: a group holding the spans
(3 – 9) and (5 – missing) collapses to start 3 (the minimum) and a missing
end date. -/
theorem collapse_null_dominance_witness :
    NameRow.mk 1 "A" (some 3) none ∈
      collapseNameHistories [NameRow.mk 1 "A" (some 3) (some 9),
        NameRow.mk 1 "A" (some 5) none] ∧
    (NameRow.mk 1 "A" (some 3) none).endDate = none ∧
    (∃ m, (NameRow.mk 1 "A" (some 3) none).startDate = some m ∧
      (∃ q ∈ nameGroup [NameRow.mk 1 "A" (some 3) (some 9),
          NameRow.mk 1 "A" (some 5) none] (1, "A"), q.startDate = some m) ∧
      ∀ q ∈ nameGroup [NameRow.mk 1 "A" (some 3) (some 9),
          NameRow.mk 1 "A" (some 5) none] (1, "A"),
        ∀ v, q.startDate = some v → m ≤ v) :=
  ⟨by decide,
   (collapse_null_dominance
     [NameRow.mk 1 "A" (some 3) (some 9), NameRow.mk 1 "A" (some 5) none]
     (NameRow.mk 1 "A" (some 3) none) (by decide)).2.2.1
     ⟨NameRow.mk 1 "A" (some 5) none, by decide, rfl⟩,
   (collapse_null_dominance
     [NameRow.mk 1 "A" (some 3) (some 9), NameRow.mk 1 "A" (some 5) none]
     (NameRow.mk 1 "A" (some 3) none) (by decide)).2.1 (by decide)⟩

/-! ## Relational Builder: person table date nulling (extract_members.py) -/

/-- One `df_person` base-table row (columns relevant to the date-nulling
step; gender plays no role in it). -/
structure PersonRow where
  id_parliament : Nat
  name : String
  start_date : Option Nat
  end_date : Option Nat
  deriving DecidableEq, Repr

/-- `start_date_matches_end_date`: some row of the table with the same
external id has an end date equal (pandas `==`, False on NaT) to this row's
start date.  The row itself is not excluded from the scan. -/
def startMatchesEndDate (rows : List PersonRow) (r : PersonRow) : Bool :=
  rows.any (fun q => q.id_parliament == r.id_parliament && pyEq r.start_date q.end_date)

/-- `end_date_matches_start_date`, symmetrically. -/
def endMatchesStartDate (rows : List PersonRow) (r : PersonRow) : Bool :=
  rows.any (fun q => q.id_parliament == r.id_parliament && pyEq r.end_date q.start_date)

/-- The per-row update: both match flags are computed against the original
table, then unmatched start/end dates are set to NA. -/
def nullifyRow (rows : List PersonRow) (r : PersonRow) : PersonRow :=
  PersonRow.mk r.id_parliament r.name
    (if startMatchesEndDate rows r then r.start_date else none)
    (if endMatchesStartDate rows r then r.end_date else none)

/-- The date-nulling step of the person-table build. -/
def nullifyUnmatchedDates (rows : List PersonRow) : List PersonRow :=
  rows.map (nullifyRow rows)

theorem pyEq_iff {a b : Option Nat} :
    pyEq a b = true ↔ ∃ d, a = some d ∧ b = some d := by
  cases a with
  | none => simp [pyEq]
  | some x =>
    cases b with
    | none => simp [pyEq]
    | some y =>
      simp only [pyEq, beq_iff_eq, Option.some.injEq]
      constructor
      · rintro rfl
        exact ⟨x, rfl, rfl⟩
      · rintro ⟨d, rfl, rfl⟩
        rfl

theorem startMatchesEndDate_iff {rows : List PersonRow} {r : PersonRow} :
    startMatchesEndDate rows r = true ↔
      ∃ q ∈ rows, q.id_parliament = r.id_parliament ∧
        ∃ d, r.start_date = some d ∧ q.end_date = some d := by
  simp only [startMatchesEndDate, List.any_eq_true, Bool.and_eq_true, beq_iff_eq, pyEq_iff]

theorem endMatchesStartDate_iff {rows : List PersonRow} {r : PersonRow} :
    endMatchesStartDate rows r = true ↔
      ∃ q ∈ rows, q.id_parliament = r.id_parliament ∧
        ∃ d, r.end_date = some d ∧ q.start_date = some d := by
  simp only [endMatchesStartDate, List.any_eq_true, Bool.and_eq_true, beq_iff_eq, pyEq_iff]

set_option maxRecDepth 10000 in
/-- Claim C7, counterexample: a single name span whose start date equals its
own end date keeps both dates — the scan for a matching span does not
exclude the row itself, so a date can be retained with no OTHER adjacent
span, contrary to the claim as stated. -/
theorem person_dates_self_match_cex :
    ∃ out ∈ nullifyUnmatchedDates [PersonRow.mk 1 "A" (some 5) (some 5)],
      out.start_date ≠ none ∧
      ¬ ∃ q ∈ [PersonRow.mk 1 "A" (some 5) (some 5)],
          q ≠ PersonRow.mk 1 "A" (some 5) (some 5) ∧
          q.id_parliament = 1 ∧ q.end_date = some 5 := by
  decide

/-- Claim C7 (amended): for every person row, its start date is retained
exactly when it equals the end date of some name span with the same
external id — possibly the row itself, since the scan does not exclude it —
and otherwise is set to null; symmetrically for the end date against start
dates.  (The original claim required a distinct other span; the
counterexample shows a self-match also retains the date.) -/
theorem person_dates_retained_iff_matched (rows : List PersonRow) (r : PersonRow)
    (hr : r ∈ rows) :
    ((∃ q ∈ rows, q.id_parliament = r.id_parliament ∧
        ∃ d, r.start_date = some d ∧ q.end_date = some d) →
      (nullifyRow rows r).start_date = r.start_date) ∧
    (¬(∃ q ∈ rows, q.id_parliament = r.id_parliament ∧
        ∃ d, r.start_date = some d ∧ q.end_date = some d) →
      (nullifyRow rows r).start_date = none) ∧
    ((∃ q ∈ rows, q.id_parliament = r.id_parliament ∧
        ∃ d, r.end_date = some d ∧ q.start_date = some d) →
      (nullifyRow rows r).end_date = r.end_date) ∧
    (¬(∃ q ∈ rows, q.id_parliament = r.id_parliament ∧
        ∃ d, r.end_date = some d ∧ q.start_date = some d) →
      (nullifyRow rows r).end_date = none) ∧
    nullifyRow rows r ∈ nullifyUnmatchedDates rows := by
  refine ⟨?_, ?_, ?_, ?_, List.mem_map.mpr ⟨r, hr, rfl⟩⟩
  · intro h
    have : startMatchesEndDate rows r = true := startMatchesEndDate_iff.mpr h
    simp [nullifyRow, this]
  · intro h
    have : startMatchesEndDate rows r = false := by
      rcases hb : startMatchesEndDate rows r with _ | _
      · rfl
      · exact absurd (startMatchesEndDate_iff.mp hb) h
    simp [nullifyRow, this]
  · intro h
    have : endMatchesStartDate rows r = true := endMatchesStartDate_iff.mpr h
    simp [nullifyRow, this]
  · intro h
    have : endMatchesStartDate rows r = false := by
      rcases hb : endMatchesStartDate rows r with _ | _
      · rfl
      · exact absurd (endMatchesStartDate_iff.mp hb) h
    simp [nullifyRow, this]

/-- Witness for the amended date-nulling claim: in the two-span history
(1 – missing – 7) followed by (1 – 7 – missing), the second span's start
date 7 abuts the first span's end date and is retained, while the first
span's start date (missing) is nulled. -/
theorem person_dates_retained_iff_matched_witness :
    (nullifyRow [PersonRow.mk 1 "A" none (some 7), PersonRow.mk 1 "B" (some 7) none]
      (PersonRow.mk 1 "B" (some 7) none)).start_date = some 7 ∧
    (nullifyRow [PersonRow.mk 1 "A" none (some 7), PersonRow.mk 1 "B" (some 7) none]
      (PersonRow.mk 1 "A" none (some 7))).start_date = none :=
  ⟨(person_dates_retained_iff_matched
      [PersonRow.mk 1 "A" none (some 7), PersonRow.mk 1 "B" (some 7) none]
      (PersonRow.mk 1 "B" (some 7) none) (by decide)).1
      ⟨PersonRow.mk 1 "A" none (some 7), by decide, rfl, 7, rfl, rfl⟩,
   (person_dates_retained_iff_matched
      [PersonRow.mk 1 "A" none (some 7), PersonRow.mk 1 "B" (some 7) none]
      (PersonRow.mk 1 "A" none (some 7)) (by decide)).2.1 (by decide)⟩

/-! ## Identity Resolver (extract_members.py, person UUID assignment) -/

/-- The person surrogate-id assignment: a left merge against the persisted
prior mapping (external id ↦ surrogate id), then one freshly minted id per
distinct still-unmapped external id, applied to every row sharing that
external id.  `mint` models the per-group `uuid.uuid4()` calls of the
grouped `transform`, one call per distinct unmapped id in group order. -/
def assignPersonIds (prior : List (Nat × Nat)) (mint : Nat → Nat)
    (extIds : List Nat) : List (Nat × Nat) :=
  let unmapped := (extIds.filter (fun e => (prior.lookup e).isNone)).dedup
  extIds.map (fun e =>
    match prior.lookup e with
    | some i => (e, i)
    | none => (e, mint (unmapped.findIdx (fun x => x == e))))

/-- The persisted external-id-to-surrogate-id mapping extracted from an
assignment run (`[['id', 'id_parliament']].drop_duplicates()`). -/
def extractIdMapping (assigned : List (Nat × Nat)) : List (Nat × Nat) :=
  assigned.dedup

/-- Looking a key up in an association list whose values are a function of
their keys returns that function of the key, whenever the key occurs. -/
theorem lookup_pair_list {l : List (Nat × Nat)} {h : Nat → Nat} {e : Nat}
    (hg : ∀ p ∈ l, p.2 = h p.1) (he : e ∈ l.map Prod.fst) :
    l.lookup e = some (h e) := by
  induction l with
  | nil => simp at he
  | cons p t ih =>
    rcases p with ⟨k, v⟩
    by_cases hek : e = k
    · subst hek
      have : v = h e := hg (e, v) (List.mem_cons_self _ _)
      simp [List.lookup_cons, this]
    · rw [List.lookup_cons]
      have hbeq : (e == k) = false := beq_false_of_ne hek
      rw [hbeq]
      refine ih (fun p hp => hg p (List.mem_cons_of_mem _ hp)) ?_
      rcases List.mem_map.mp he with ⟨q, hq, hqe⟩
      rcases List.mem_cons.mp hq with rfl | hq
      · exact absurd hqe.symm hek
      · exact List.mem_map.mpr ⟨q, hq, hqe⟩

/-- Claim C5: a cold-start run of the Identity Resolver (no prior mapping)
followed by a second run over the same rows that is fed the first run's
extracted mapping as its prior mapping assigns every row exactly the
surrogate id the first run assigned — regardless of what the second run
would mint. -/
theorem identity_resolver_roundtrip (extIds : List Nat) (f g : Nat → Nat) :
    assignPersonIds (extractIdMapping (assignPersonIds [] f extIds)) g extIds =
      assignPersonIds [] f extIds := by
  have hnil : ∀ e : Nat, (([] : List (Nat × Nat)).lookup e) = none := fun _ => rfl
  have h1 : assignPersonIds [] f extIds =
      extIds.map (fun e =>
        (e, f ((extIds.dedup).findIdx (fun x => x == e)))) := by
    unfold assignPersonIds
    simp [hnil, List.filter_true]
  set h : Nat → Nat := fun e => f ((extIds.dedup).findIdx (fun x => x == e)) with hh
  have h1' : assignPersonIds [] f extIds = extIds.map (fun e => (e, h e)) := h1
  have hgraph : ∀ p ∈ extractIdMapping (assignPersonIds [] f extIds), p.2 = h p.1 := by
    intro p hp
    have hp' : p ∈ extIds.map (fun e => (e, h e)) := by
      rw [← h1']
      exact (List.dedup_sublist _).mem hp
    rcases List.mem_map.mp hp' with ⟨e, _, rfl⟩
    rfl
  have hkeys : ∀ e ∈ extIds,
      e ∈ (extractIdMapping (assignPersonIds [] f extIds)).map Prod.fst := by
    intro e he
    refine List.mem_map.mpr ⟨(e, h e), ?_, rfl⟩
    rw [extractIdMapping, List.mem_dedup, h1']
    exact List.mem_map.mpr ⟨e, he, rfl⟩
  rw [h1'] at hgraph hkeys
  rw [h1']
  unfold assignPersonIds
  refine List.map_congr_left ?_
  intro e he
  rw [lookup_pair_list hgraph (hkeys e he)]

/-! ## House classification of party spans (C8) -/

theorem pyLe_iff {a b : Option Nat} :
    pyLe a b = true ↔ ∃ x y, a = some x ∧ b = some y ∧ x ≤ y := by
  cases a with
  | none => simp [pyLe]
  | some x =>
    cases b with
    | none => simp [pyLe]
    | some y => simp [pyLe]

/-- Claim C8: a party span is classified as Lords (house 2) exactly when
the person's earliest Lords house-membership start date exists and the
span's start date exists and is on or after it; a span starting exactly on
that date is Lords; a span of a person with no Lords house-membership
record is Commons (house 1); and a Lords-classified span is exempt from the
pre-2015 splitting selection. -/
theorem pyLe_none_right {a : Option Nat} : pyLe a none = false := by
  cases a <;> rfl

theorem partyHouse_eq_two_iff {l s : Option Nat} :
    partyHouse l s = 2 ↔ pyLe l s = true := by
  rw [partyHouse]
  by_cases hp : pyLe l s = true
  · simp [hp]
  · simp only [if_neg hp]
    constructor
    · intro h
      exact absurd h (by decide)
    · intro h
      exact absurd h hp

theorem party_span_house_classification (hms : List HouseMembership) (pid : Nat)
    (st : Option Nat) :
    (partyHouse (lordsStart hms pid) st = 2 ↔
      ∃ L s, lordsStart hms pid = some L ∧ st = some s ∧ L ≤ s) ∧
    (∀ L, lordsStart hms pid = some L →
      partyHouse (lordsStart hms pid) (some L) = 2) ∧
    ((∀ h ∈ hms, h.id = pid → h.house ≠ 2) →
      partyHouse (lordsStart hms pid) st = 1) ∧
    (∀ e, partyHouse (lordsStart hms pid) st = 2 →
      isPre2015Mp e (partyHouse (lordsStart hms pid) st) = false) := by
  refine ⟨partyHouse_eq_two_iff.trans pyLe_iff, ?_, ?_, ?_⟩
  · intro L hL
    rw [partyHouse, hL]
    simp [pyLe]
  · intro h
    have hfil : hms.filter (fun h => h.id == pid && h.house == 2) = [] := by
      rw [List.filter_eq_nil_iff]
      intro a ha
      simp only [Bool.and_eq_true, beq_iff_eq, not_and]
      intro hid
      exact h a ha hid
    rw [partyHouse, lordsStart, hfil]
    simp [pyLe]
  · intro e h2
    rw [h2]
    simp [isPre2015Mp]

/-- Witness for the house-classification claim: a person whose earliest
Lords membership starts on day 10 has a party span starting on day 10
classified Lords, and a person with no Lords record has the same span
classified Commons. -/
theorem party_span_house_classification_witness :
    partyHouse (lordsStart [HouseMembership.mk 1 2 (some 10) none "Lords" 5] 1)
      (some 10) = 2 ∧
    partyHouse (lordsStart [] 1) (some 10) = 1 :=
  ⟨(party_span_house_classification [HouseMembership.mk 1 2 (some 10) none "Lords" 5]
      1 (some 10)).1.mpr ⟨10, 10, by decide, rfl, Nat.le_refl 10⟩,
   (party_span_house_classification [] 1 (some 10)).2.2.1 (by simp)⟩

/-! ## Relational Builder: RepresentationCharacteristic (C3) -/

/-- One `df_representation` row, restricted to the columns the
characteristics join reads (row UUID, external person id, spell dates). -/
structure Representation where
  id : Nat
  id_parliament : Nat
  start_date : Option Nat
  end_date : Option Nat
  deriving DecidableEq, Repr

/-- One produced `df_representation_characteristics` row. -/
structure CharacteristicRow where
  representation_id : Nat
  party : Option String
  start_date : Option Nat
  end_date : Option Nat
  deriving DecidableEq, Repr

/-- The left merge of representations with party-history spans on the
external person id: representations with no matching span keep one row with
missing party columns. -/
def leftJoinParty (reps : List Representation) (phs : List PartySpan) :
    List (Representation × Option PartySpan) :=
  reps.flatMap (fun rep =>
    let ms := phs.filter (fun ph => ph.id == rep.id_parliament)
    if ms.isEmpty then [(rep, none)] else ms.map (fun ph => (rep, some ph)))

/-- The party span's start date of a joined row (NaT for an unmatched row). -/
def phStart : Option PartySpan → Option Nat
  | none => none
  | some ph => ph.startDate

/-- The containment filter:
`start_date <= startDate and (isna(end_date) or end_date > startDate)`,
where `start_date`/`end_date` are the representation's dates and `startDate`
the party span's. -/
def charKeep (rep : Representation) (oph : Option PartySpan) : Bool :=
  pyLe rep.start_date (phStart oph) &&
  (rep.end_date.isNone || pyLt (phStart oph) rep.end_date)

/-- The RepresentationCharacteristic build: join, containment filter, then
projection to (representation_id, party, start_date, end_date). -/
def representationCharacteristics (reps : List Representation)
    (phs : List PartySpan) : List CharacteristicRow :=
  ((leftJoinParty reps phs).filter (fun p => charKeep p.1 p.2)).map
    (fun p =>
      match p.2 with
      | some ph => CharacteristicRow.mk p.1.id (some ph.party) ph.startDate ph.endDate
      | none => CharacteristicRow.mk p.1.id none none none)

/-- Claim C3, counterexample: a representation spell 2001 – 2005 joined
with a party span 2001 – 2010 of the same person produces a characteristic
row whose end date 2010 exceeds the representation's end date 2005 (and
neither is null) — the build does not clamp or filter the row's end date. -/
theorem characteristic_end_containment_cex :
    ∃ row ∈ representationCharacteristics
        [Representation.mk 100 1 (some 2001) (some 2005)]
        [PartySpan.mk 1 (some 2001) (some 2010) "X"],
      ∃ rep ∈ [Representation.mk 100 1 (some 2001) (some 2005)],
        rep.id = row.representation_id ∧
        ¬(pyLe row.end_date rep.end_date = true ∨
          (row.end_date = none ∧ rep.end_date = none)) := by
  decide

/-- Claim C3 (amended): for every produced RepresentationCharacteristic row,
its start date is on or after its Representation's start date (both
concrete), and the Representation's end date is either null or strictly
after the row's start date.  The row's own end date is not bounded by the
representation's end date (see the counterexample), so the end-containment
half of the original claim is dropped. -/
theorem characteristic_start_containment (reps : List Representation)
    (phs : List PartySpan) (hids : (reps.map (·.id)).Nodup)
    (row : CharacteristicRow)
    (hrow : row ∈ representationCharacteristics reps phs) :
    ∀ rep ∈ reps, rep.id = row.representation_id →
      pyLe rep.start_date row.start_date = true ∧
      (rep.end_date = none ∨ pyLt row.start_date rep.end_date = true) := by
  intro rep hrep hid
  rcases List.mem_map.mp hrow with ⟨p, hpf, hproj⟩
  rcases List.mem_filter.mp hpf with ⟨hpj, hkeep⟩
  rcases List.mem_flatMap.mp hpj with ⟨rep', hrep', hpin⟩
  rcases hms : (phs.filter (fun ph => ph.id == rep'.id_parliament)).isEmpty with _ | _
  · rw [if_neg (by rw [hms]; exact Bool.false_ne_true)] at hpin
    rcases List.mem_map.mp hpin with ⟨ph, hph, rfl⟩
    simp only [charKeep, Bool.and_eq_true, Bool.or_eq_true] at hkeep
    rcases hkeep with ⟨hle, hor⟩
    have hrid : rep = rep' := by
      apply List.inj_on_of_nodup_map hids hrep hrep'
      rw [hid, ← hproj]
    subst hrid
    have hrs : row.start_date = ph.startDate := by rw [← hproj]
    refine ⟨by rwa [hrs], ?_⟩
    rcases hor with hnone | hlt
    · exact Or.inl (Option.isNone_iff_eq_none.mp hnone)
    · exact Or.inr (by rwa [hrs])
  · rw [if_pos (by rw [hms])] at hpin
    rcases List.mem_singleton.mp hpin with rfl
    simp only [charKeep, Bool.and_eq_true] at hkeep
    rcases hkeep with ⟨hle, _⟩
    rw [phStart, pyLe_none_right] at hle
    exact absurd hle Bool.false_ne_true

/-- Witness for the amended containment claim: spell 5 – 10 with party span
6 – 9 of the same person yields a row starting at 6 ≥ 5 and 6 < 10. -/
theorem characteristic_start_containment_witness :
    pyLe (Representation.mk 100 1 (some 5) (some 10)).start_date
      (some 6) = true ∧
    ((Representation.mk 100 1 (some 5) (some 10)).end_date = none ∨
      pyLt (some 6) (Representation.mk 100 1 (some 5) (some 10)).end_date = true) := by
  have h := characteristic_start_containment
    [Representation.mk 100 1 (some 5) (some 10)]
    [PartySpan.mk 1 (some 6) (some 9) "X"] (by decide)
    (CharacteristicRow.mk 100 (some "X") (some 6) (some 9)) (by decide)
    (Representation.mk 100 1 (some 5) (some 10)) (by decide) rfl
  exact h

/-! ## Relational Builder: Representation rows (C10) -/

/-- Python `str.capitalize()`: first character upper-cased, the rest
lower-cased. -/
def capitalize (s : String) : String :=
  match s.data with
  | [] => s
  | c :: cs => String.mk (c.toUpper :: cs.map Char.toLower)

/-- One `df_representation` row as built from a house-membership record
(columns relevant to the peerage/constituency rules). -/
structure RepRow where
  id_parliament : Nat
  house : String
  type : Option String
  constituency_id : Option Nat
  start_date : Option Nat
  end_date : Option Nat
  deriving DecidableEq, Repr

/-- The representation-row build: house recoded to Commons/Lords, peerage
`type` capitalized from the membership label when the external constituency
id is at most 10, and a surrogate constituency id (`cid`, modelling the
per-`membershipFromID` group `uuid.uuid4()` transform) assigned to every
row. -/
def mkRepresentationRow (cid : Nat → Nat) (h : HouseMembership) : RepRow :=
  RepRow.mk h.id
    (if h.house == 1 then "Commons" else "Lords")
    (if h.membershipFromID ≤ 10 then some (capitalize h.membershipFrom) else none)
    (some (cid h.membershipFromID))
    h.startDate h.endDate

/-- Claim C10, counterexample: a Lords membership with external
pseudo-constituency id 5 gets a populated peerage type AND a populated
constituency id — the build never blanks the constituency id on peerage
rows (peerages are excluded later from the constituency table instead). -/
theorem representation_peerage_constituency_cex :
    (mkRepresentationRow (fun n => n)
      (HouseMembership.mk 1 2 (some 3) none "Hereditary" 5)).type ≠ none ∧
    (mkRepresentationRow (fun n => n)
      (HouseMembership.mk 1 2 (some 3) none "Hereditary" 5)).constituency_id ≠ none := by
  decide

/-- Claim C10 (amended): in every built Representation row the peerage type
is populated exactly when the membership's external constituency id is at
most 10, and the constituency id is populated on every row — including
peerage rows — with the surrogate id of its external constituency id. -/
theorem representation_type_iff_low_id (cid : Nat → Nat) (h : HouseMembership) :
    ((mkRepresentationRow cid h).type ≠ none ↔ h.membershipFromID ≤ 10) ∧
    (mkRepresentationRow cid h).constituency_id = some (cid h.membershipFromID) := by
  constructor
  · by_cases hle : h.membershipFromID ≤ 10
    · simp [mkRepresentationRow, hle]
    · simp [mkRepresentationRow, hle]
  · rfl

/-- Witness for the amended peerage-type claim at the two sides of the
boundary: id 10 populates the type, id 11 does not. -/
theorem representation_type_iff_low_id_witness :
    (mkRepresentationRow (fun n => n)
      (HouseMembership.mk 1 2 none none "Life peer" 10)).type ≠ none ∧
    ¬((mkRepresentationRow (fun n => n)
      (HouseMembership.mk 2 1 none none "Hackney" 11)).type ≠ none) :=
  ⟨(representation_type_iff_low_id (fun n => n)
      (HouseMembership.mk 1 2 none none "Life peer" 10)).1.mpr (by decide),
   fun hc => absurd ((representation_type_iff_low_id (fun n => n)
      (HouseMembership.mk 2 1 none none "Hackney" 11)).1.mp hc) (by decide)⟩

/-! ## Relational Builder: RepresentationStatus (C6) -/

/-- One `df_members` row (columns the status build reads). -/
structure MemberRow where
  id : Nat
  status : Option String
  statusNotes : Option String
  statusStartDate : Option Nat
  deriving DecidableEq, Repr

/-- One `df_representation_status` row. -/
structure StatusRow where
  representation_id : Option Nat
  id_parliament : Nat
  status : Option String
  reason : Option String
  start_date : Option Nat
  end_date : Option Nat
  deriving DecidableEq, Repr

/-- `status.replace('Current Member', 'Active').capitalize()` on a known
status, kept missing otherwise. -/
def recodeStatus (s : Option String) : Option String :=
  s.map (fun x => capitalize (x.replace "Current Member" "Active"))

/-- The reason column: dropped when equal to the (recoded) status, else
sentence-cased when known. -/
def recodeReason (reason status' : Option String) : Option String :=
  if reason == status' then none else reason.map capitalize

/-- The person's currently-open representations
(`df_representation.loc[end_date.isna()]` rows with this external id). -/
def openRepsFor (reps : List Representation) (pid : Nat) : List Representation :=
  reps.filter (fun r => r.id_parliament == pid && r.end_date.isNone)

/-- The RepresentationStatus base table: one row per member from the raw
member record, left-merged onto the member's open representations, with the
status start date clamped up to the representation start date. -/
def statusTable (members : List MemberRow) (reps : List Representation) :
    List StatusRow :=
  members.flatMap (fun m =>
    let st := recodeStatus m.status
    let rs := recodeReason m.statusNotes st
    let ors := openRepsFor reps m.id
    if ors.isEmpty then
      [StatusRow.mk none m.id st rs m.statusStartDate none]
    else
      ors.map (fun r =>
        StatusRow.mk (some r.id) m.id st rs
          (if pyLt m.statusStartDate r.start_date then r.start_date
           else m.statusStartDate)
          none))

/-- The status build with the cardinality assertion
(`assert groupby('id_parliament').size().max() == 1`): an Except error
models the AssertionError halting the run. -/
def representationStatus (members : List MemberRow) (reps : List Representation) :
    Except String (List StatusRow) :=
  if (((statusTable members reps).map (·.id_parliament)).dedup.map
      (fun k => ((statusTable members reps).map (·.id_parliament)).count k)).max? =
      some 1 then
    Except.ok (statusTable members reps)
  else
    Except.error "More than one representation status record for at least one person"

/-- Claim C6: whenever some person receives two or more rows in the
RepresentationStatus base table (for example, from two currently-open
representations), the build halts with the assertion error rather than
truncating; and any table the build returns has at most one row per
person. -/
theorem representation_status_singularity (members : List MemberRow)
    (reps : List Representation) :
    ((∃ p, 2 ≤ ((statusTable members reps).map (·.id_parliament)).count p) →
      ∃ msg, representationStatus members reps = Except.error msg) ∧
    (∀ t, representationStatus members reps = Except.ok t →
      ∀ p, (t.map (·.id_parliament)).count p ≤ 1) := by
  constructor
  · rintro ⟨p, hp⟩
    have hmem : p ∈ (statusTable members reps).map (·.id_parliament) :=
      List.count_pos_iff.mp (by omega)
    have hsz : ((statusTable members reps).map (·.id_parliament)).count p ∈
        ((statusTable members reps).map (·.id_parliament)).dedup.map
          (fun k => ((statusTable members reps).map (·.id_parliament)).count k) :=
      List.mem_map.mpr ⟨p, List.mem_dedup.mpr hmem, rfl⟩
    have hnot : ¬(((statusTable members reps).map (·.id_parliament)).dedup.map
        (fun k => ((statusTable members reps).map (·.id_parliament)).count k)).max? =
        some 1 := by
      intro hmax
      rcases (List.max?_eq_some_iff (fun a => le_refl a) (fun a b => max_choice a b)
        (fun _ _ _ => Nat.max_le)).mp hmax with ⟨_, hub⟩
      have := hub _ hsz
      omega
    rw [representationStatus, if_neg hnot]
    exact ⟨_, rfl⟩
  · intro t ht p
    by_cases hc : (((statusTable members reps).map (·.id_parliament)).dedup.map
        (fun k => ((statusTable members reps).map (·.id_parliament)).count k)).max? =
        some 1
    · rw [representationStatus, if_pos hc] at ht
      have htt : t = statusTable members reps := (Except.ok.injEq _ _ ▸ ht).symm
      rw [htt]
      by_cases hmem : p ∈ ((statusTable members reps).map (·.id_parliament))
      · rcases (List.max?_eq_some_iff (fun a => le_refl a) (fun a b => max_choice a b)
          (fun _ _ _ => Nat.max_le)).mp hc with ⟨_, hub⟩
        exact hub _ (List.mem_map.mpr ⟨p, List.mem_dedup.mpr hmem, rfl⟩)
      · rw [List.count_eq_zero.mpr hmem]
        omega
    · rw [representationStatus, if_neg hc] at ht
      cases ht

/-- Witness for the status-singularity claim: a member with two open
representations makes the build halt with the assertion error, and the
table built from a single open representation has at most one row per
person. -/
theorem representation_status_singularity_witness :
    (∃ msg, representationStatus [MemberRow.mk 7 (some "Current Member") none (some 3)]
      [Representation.mk 100 7 (some 1) none, Representation.mk 101 7 (some 2) none] =
      Except.error msg) ∧
    ∀ p, ((statusTable [MemberRow.mk 7 (some "Current Member") none (some 3)]
        [Representation.mk 100 7 (some 1) none]).map (·.id_parliament)).count p ≤ 1 :=
  ⟨(representation_status_singularity
      [MemberRow.mk 7 (some "Current Member") none (some 3)]
      [Representation.mk 100 7 (some 1) none, Representation.mk 101 7 (some 2) none]).1
      ⟨7, by decide⟩,
   fun p => (representation_status_singularity
      [MemberRow.mk 7 (some "Current Member") none (some 3)]
      [Representation.mk 100 7 (some 1) none]).2 _ rfl p⟩

/-! ## Entity Extractors (functions.py, extractMembers) (C9) -/

/-- The `membershipStatus` object of a house membership. -/
structure MembershipStatus where
  statusDescription : Option String
  statusNotes : Option String
  statusStartDate : Option String
  deriving DecidableEq, Repr

/-- The `latestParty` object of a member. -/
structure LatestParty where
  name : String
  deriving DecidableEq, Repr

/-- The `latestHouseMembership` object of a member; the API returns null
for it in some records (the code's own comment notes it is None for
peers). -/
structure LatestHouseMembership where
  membershipFrom : String
  house : Nat
  membershipStatus : Option MembershipStatus
  deriving DecidableEq, Repr

/-- A `member['value']` object of a Members Search API result page. -/
structure MemberValue where
  id : Nat
  gender : String
  nameDisplayAs : String
  latestParty : Option LatestParty
  latestHouseMembership : Option LatestHouseMembership
  deriving DecidableEq, Repr

/-- The flat row extracted per member. -/
structure ExtractedMember where
  id : Nat
  gender : String
  nameDisplayAs : String
  is_mp : Bool
  is_peer : Bool
  is_current : Bool
  party : Option String
  constituency : String
  status : Option String
  statusNotes : Option String
  statusStartDate : Option String
  deriving DecidableEq, Repr

/-- `extractMembers` on one member record: the code subscripts
`latestHouseMembership` unconditionally, so a null object raises a
TypeError (modelled as `.error`); `latestParty` and `membershipStatus` are
guarded and surface as None fields. -/
def extractMember (m : MemberValue) : Except String ExtractedMember :=
  match m.latestHouseMembership with
  | none => Except.error "TypeError: NoneType object is not subscriptable"
  | some lhm =>
    Except.ok (ExtractedMember.mk m.id m.gender m.nameDisplayAs
      (lhm.house == 1) (!(lhm.house == 1)) lhm.membershipStatus.isSome
      (m.latestParty.map (·.name)) lhm.membershipFrom
      (lhm.membershipStatus.bind (·.statusDescription))
      (lhm.membershipStatus.bind (·.statusNotes))
      (lhm.membershipStatus.bind (·.statusStartDate)))

/-- `extractMembers` over a page: the Python loop raises at the first
failing record. -/
def extractMembersPage (items : List MemberValue) :
    Except String (List ExtractedMember) :=
  items.mapM extractMember

/-- Claim C9, evaluation at the failing input: a page holding a member
whose `latestHouseMembership` is null makes `extractMembers` raise instead
of producing a row, while null `latestParty` and `membershipStatus` objects
are handled and surface as None fields. -/
theorem extractMembers_null_house_membership_raises :
    (∃ msg, extractMembersPage [MemberValue.mk 1 "M" "X" none none] =
      Except.error msg) ∧
    extractMembersPage [MemberValue.mk 2 "F" "Y" none
        (some (LatestHouseMembership.mk "Con" 1 none))] =
      Except.ok [ExtractedMember.mk 2 "F" "Y" true false false none "Con"
        none none none] := by
  exact ⟨⟨_, rfl⟩, rfl⟩

end ParliamentData
